import Mathlib

/-
Verification of `src/app/core/config.service.js` (configService of fgpv-vpgf).

The service is embedded shallowly:
* JSON values are the mutual inductive `Val` / `ValList` / `Fields`
  (objects keep insertion order, like JS objects).
* `angular.merge` (the external Angular collaborator used by
  `configInitialized`) is modelled by `angularMergeTop` / `mergeFields` /
  `nestedVal` / `mergeElems` / `mergeIdxInto` on the JSON fragment:
  object sources are folded key by key into the destination; a container
  value merges into any existing container (`baseExtend` resets `dst[key]`
  only when it is not an object, and arrays are objects), recursively for
  like kinds, property-wise across kinds; every other value is assigned
  wholesale.  The one result that is not a JSON value — an object source
  extending an existing array, which angular leaves as that array carrying
  the merged-in named properties — is represented by its enumerable
  property map (`jsonSafeMerge` delimits the zone where no such hybrid
  arises).  (Angular's enumeration of index properties of primitive or
  array *top-level* sources is outside the modelled fragment; those cases
  leave the destination unchanged here — none of the claims' stores reach
  them.)
* `angular.fromJson` and `$http.get` are external collaborators, supplied
  to the model as oracle functions inside `Env`.
* Promises are modelled by their final settled state `POutcome`; a promise
  that is never fulfilled nor rejected stays `pending`.  `$q` settles a
  deferred at most once, so the state is a single value and a `reject`
  fired from a fetch `catch` handler always precedes (and therefore wins
  against) the later `fulfill` fired from `$q.all`, because `$q.all` only
  settles after every member promise (including the one whose `catch`
  called `reject`) has settled.
-/

set_option autoImplicit false

namespace FgpvConfig

/-- Final state of a `$q` promise: it either never settles, resolves, or
rejects.  The carried values are irrelevant to the verified claims. -/
inductive POutcome where
  | pending
  | resolved
  | rejected
  deriving DecidableEq

mutual
/-- JSON value, as produced by `angular.fromJson`. -/
inductive Val where
  | vnull : Val
  | vbool : Bool → Val
  | vnum : Int → Val
  | vstr : String → Val
  | varr : ValList → Val
  | vobj : Fields → Val

/-- Elements of a JSON array. -/
inductive ValList where
  | nil : ValList
  | cons : Val → ValList → ValList

/-- Fields of a JSON object, in insertion order (JS object key order). -/
inductive Fields where
  | nil : Fields
  | cons : String → Val → Fields → Fields
end

/-- JS truthiness of a JSON value (`if (configJson)`, `if (data.data)`). -/
def Val.truthy : Val → Bool
  | .vnull => false
  | .vbool b => b
  | .vnum n => decide (n ≠ 0)
  | .vstr s => decide (s ≠ "")
  | .varr _ => true
  | .vobj _ => true

/-- Whether an object has a field with the given key. -/
def Fields.hasKey : Fields → String → Bool
  | .nil, _ => false
  | .cons k0 _ rest, k => k0 = k || rest.hasKey k

/-- First field with the given key, if any. -/
def Fields.lookupK : Fields → String → Option Val
  | .nil, _ => none
  | .cons k0 v0 rest, k => if k0 = k then some v0 else rest.lookupK k

/-- JS property assignment `o[k] = v`: an existing key keeps its position
and gets the new value, a new key is appended. -/
def Fields.setK : Fields → String → Val → Fields
  | .nil, k, v => .cons k v .nil
  | .cons k0 v0 rest, k, v =>
      if k0 = k then .cons k0 v rest else .cons k0 v0 (rest.setK k v)

/-- Concatenation of field lists. -/
def Fields.append : Fields → Fields → Fields
  | .nil, gs => gs
  | .cons k v rest, gs => .cons k v (rest.append gs)

/-- Keys are pairwise distinct (true of anything produced by a JSON
parser, where later duplicate keys overwrite earlier ones). -/
def Fields.keysNodup : Fields → Bool
  | .nil => true
  | .cons k _ rest => !rest.hasKey k && rest.keysNodup

mutual
/-- At every object node the keys are pairwise distinct ("deeply
parser-shaped" value). -/
def Val.dnd : Val → Bool
  | .vobj fs => fs.keysNodup && fs.dndAll
  | .varr xs => xs.dndAll
  | _ => true

/-- All values of an object are deeply parser-shaped. -/
def Fields.dndAll : Fields → Bool
  | .nil => true
  | .cons _ v rest => v.dnd && rest.dndAll

/-- All elements of an array are deeply parser-shaped. -/
def ValList.dndAll : ValList → Bool
  | .nil => true
  | .cons v rest => v.dnd && rest.dndAll
end

/-- Head of an array's element list, if any. -/
def ValList.headO : ValList → Option Val
  | .nil => none
  | .cons v _ => some v

/-- Tail of an array's element list (nil on nil). -/
def ValList.tailO : ValList → ValList
  | .nil => .nil
  | .cons _ rest => rest

/-- The index properties of an array, as the string keys JS
`for (key in arr)` enumerates: `"0"`, `"1"`, … in order. -/
def idxFields : Nat → ValList → Fields
  | _, .nil => .nil
  | i, .cons v rest => .cons (toString i) v (idxFields (i + 1) rest)

mutual
/-- One pass of angular's `baseExtend(dst, [srcObj], deep)` over the keys
of the source object: each source key is assigned into the destination via
`nestedVal`, in source order. -/
def mergeFields : Fields → Fields → Fields
  | dfs, .nil => dfs
  | dfs, .cons k v rest => mergeFields (dfs.setK k (nestedVal (dfs.lookupK k) v)) rest

/-- Value stored for one source key, following `baseExtend`'s guard
`if (!isObject(dst[key])) dst[key] = isArray(src[key]) ? [] : \x7b\x7d`:
a fresh empty container is created only when the existing value is not an
object (arrays are objects in JS), so a container source merges INTO any
existing container.  Like kinds merge recursively; an array source landing
on an existing object extends it property-wise by its index keys (the
result stays an object); an object source landing on an existing array
extends the array's property map — angular's result is that array carrying
the merged properties, a non-JSON hybrid which this model represents by
its enumerable property map (the array's index fields extended by the
source's fields).  Non-container sources are assigned wholesale. -/
def nestedVal : Option Val → Val → Val
  | dOpt, .vobj f =>
      match dOpt with
      | some (.vobj df) => .vobj (mergeFields df f)
      | some (.varr dx) => .vobj (mergeFields (idxFields 0 dx) f)
      | _ => .vobj (mergeFields .nil f)
  | dOpt, .varr xs =>
      match dOpt with
      | some (.varr dx) => .varr (mergeElems dx xs)
      | some (.vobj df) => .vobj (mergeIdxInto df 0 xs)
      | _ => .varr (mergeElems .nil xs)
  | _, v => v

/-- Index-wise extension of a destination array by a source array:
source indices overwrite via `nestedVal`, surplus destination elements are
kept. -/
def mergeElems : ValList → ValList → ValList
  | dxs, .nil => dxs
  | dxs, .cons v rest => .cons (nestedVal dxs.headO v) (mergeElems dxs.tailO rest)

/-- Property-wise extension of an (object) destination by an array
source: keys `"0"`, `"1"`, … are assigned in order via `nestedVal`, as
`for (key in srcArray)` enumerates them. -/
def mergeIdxInto : Fields → Nat → ValList → Fields
  | df, _, .nil => df
  | df, i, .cons v rest =>
      mergeIdxInto (df.setK (toString i) (nestedVal (df.lookupK (toString i)) v)) (i + 1) rest
end

/-- Apply one source of `angular.merge(dst, ...sources)` to a destination:
an object source is folded in key by key; a non-object source contributes
no keys on the modelled JSON fragment and leaves the destination
unchanged. -/
def angularMergeTop (d s : Val) : Val :=
  match s with
  | .vobj sfs =>
      match d with
      | .vobj dfs => .vobj (mergeFields dfs sfs)
      | _ => .vobj (mergeFields .nil sfs)
  | _ => d

mutual
/-- Nowhere along the merge does an object source value land on an array
destination value.  That is the one corner where angular's result (the
existing array mutated to carry the merged-in properties) is not a JSON
value and is represented in this model only by its property map; inside
this zone the merge model is exact. -/
def jsonSafeMerge : Option Val → Val → Bool
  | some (.varr _), .vobj _ => false
  | some (.vobj df), .vobj sf => jsonSafeFields df sf
  | some (.varr dx), .varr sx => jsonSafeElems dx sx
  | some (.vobj df), .varr sx => jsonSafeIdx df 0 sx
  | _, _ => true

/-- Every source field merges safely against the destination's value at
its key. -/
def jsonSafeFields : Fields → Fields → Bool
  | _, .nil => true
  | df, .cons k v rest => jsonSafeMerge (df.lookupK k) v && jsonSafeFields df rest

/-- Every source element merges safely against the destination element at
its index. -/
def jsonSafeElems : ValList → ValList → Bool
  | _, .nil => true
  | dx, .cons v rest => jsonSafeMerge dx.headO v && jsonSafeElems dx.tailO rest

/-- Every source element merges safely against the destination object's
value at its index key. -/
def jsonSafeIdx : Fields → Nat → ValList → Bool
  | _, _, .nil => true
  | df, i, .cons v rest =>
      jsonSafeMerge (df.lookupK (toString i)) v && jsonSafeIdx df (i + 1) rest
end

/-- Index of the first occurrence of `pat` in `s` (JS `String.indexOf`).
An empty pattern matches at index 0, as in JS. -/
def firstIdx : List Char → List Char → Option Nat
  | s, pat =>
    if pat.isPrefixOf s then some 0
    else
      match s with
      | [] => none
      | _ :: rest => Option.map (· + 1) (firstIdx rest pat)

/-- Expansion of the replacement string of JS `String.replace`
(`GetSubstitution` with a string pattern, hence no capture groups):
`$$` yields `$`, `$&` the matched text, a dollar followed by a backtick
the part before the match, `$` followed by a quote the part after it;
any other `$` is literal. -/
def substChars (matched pre post : List Char) : List Char → List Char
  | [] => []
  | [c] => [c]
  | c :: d :: rest2 =>
      if c = '$' then
        if d = '$' then '$' :: substChars matched pre post rest2
        else if d = '&' then matched ++ substChars matched pre post rest2
        else if d = Char.ofNat 96 then pre ++ substChars matched pre post rest2
        else if d = Char.ofNat 39 then post ++ substChars matched pre post rest2
        else c :: substChars matched pre post (d :: rest2)
      else c :: substChars matched pre post (d :: rest2)

/-- JS `s.replace(pat, repl)` with a string pattern: only the first
occurrence of `pat` is rewritten, and the replacement string is expanded
by `substChars`. -/
def replaceFirstL (s pat repl : List Char) : List Char :=
  match firstIdx s pat with
  | none => s
  | some i =>
      s.take i ++ substChars pat (s.take i) (s.drop (i + pat.length)) repl
        ++ s.drop (i + pat.length)

/-- String wrapper for `replaceFirstL`; models `configAttr.replace('$LANG', lang)`. -/
def replaceFirstJS (s pat repl : String) : String :=
  String.mk (replaceFirstL s.data pat.data repl.data)

/-- Modelled from the spec claim wording: "the template with only the
first occurrence of the placeholder token replaced by the language code;
any further occurrences left unsubstituted" — a purely literal
first-occurrence replacement, used to compare the claim against the JS
semantics of `replaceFirstJS`. -/
def specReplaceFirstL (pat repl : List Char) : List Char → List Char
  | [] => if pat.isPrefixOf ([] : List Char) then repl else []
  | c :: rest =>
      if pat.isPrefixOf (c :: rest) then repl ++ (c :: rest).drop pat.length
      else c :: specReplaceFirstL pat repl rest

/-- String wrapper for `specReplaceFirstL`. -/
def specReplaceFirst (s pat repl : String) : String :=
  String.mk (specReplaceFirstL pat.data repl.data s.data)

/-- The replacement string contains no dollar character, so JS expands it
to itself. -/
def noDollar (s : String) : Bool :=
  s.data.all (fun c => !(c = '$'))

/-- URL fetched for one language: the raw config attribute with the first
`$LANG` replaced by the language code (JS `replace` semantics). -/
def langURL (ca lang : String) : String :=
  replaceFirstJS ca "$LANG" lang

/-- Outcome of one `$http.get`: a resolved response whose `data` field
carries the parsed body, or a rejection. -/
inductive FetchOutcome where
  | ok : Val → FetchOutcome
  | err : FetchOutcome

/-- Process-wide inputs and external collaborators of the service:
the two `$rootElement` attributes, the defaults (`configDefaults`), the
JSON parser (`angular.fromJson`, `none` = throws; for the language list a
`none` also covers a falsy parse result, which the code treats the same),
and the HTTP transport keyed by URL. -/
structure Env where
  defaults : Val
  configAttr : Option String
  langAttr : Option String
  parse : String → Option Val
  parseLangs : String → Option (List String)
  fetch : String → FetchOutcome

/-- Per-language config store `service.data` as an association list in
write order.  (Real insertion order follows fetch completion order; the
claims only ever observe the store through per-key lookup and per-key
entry counts, which completion order cannot affect because each language
deterministically writes the same value.) -/
def Store := List (String × Val)

/-- Lookup in `service.data` by language key. -/
def storeLookup : List (String × Val) → String → Option Val
  | [], _ => none
  | (k, v) :: rest, l => if k = l then some v else storeLookup rest l

/-- Assignment `service.data[lang] = v`. -/
def storeSet : List (String × Val) → String → Val → List (String × Val)
  | [], k, v => [(k, v)]
  | (k0, v0) :: rest, k, v =>
      if k0 = k then (k0, v) :: rest else (k0, v0) :: storeSet rest k v

/-- Number of entries under a key. -/
def countKey : List (String × Val) → String → Nat
  | [], _ => 0
  | (k, _) :: rest, l => (if k = l then 1 else 0) + countKey rest l

/-- The merged value written by `configInitialized`:
`service.data[lang] = \x7b\x7d; angular.merge(service.data[lang], configDefaults, config)`. -/
def cfgMerge (defaults config : Val) : Val :=
  angularMergeTop (angularMergeTop (Val.vobj .nil) defaults) config

/-- `configInitialized(config, lang)`: store the defaults-then-config
merge under the language key. -/
def cfgInit (defaults : Val) (st : List (String × Val)) (config : Val) (lang : String) :
    List (String × Val) :=
  storeSet st lang (cfgMerge defaults config)

/-- The language list used by the fetch fan-out: the parsed `rv-langs`
attribute when it is present, truthy and parses to a truthy array,
otherwise the default `["en", "fr"]` (`if (!langs) langs = ['en','fr']`). -/
def declaredLangs (e : Env) : List String :=
  match e.langAttr with
  | some la => if la = "" then ["en", "fr"] else (e.parseLangs la).getD ["en", "fr"]
  | none => ["en", "fr"]

/-- Store updates performed by the per-language fetch callbacks, in list
order: a resolved response with truthy `data` runs `configInitialized`,
anything else leaves the store alone. -/
def runFetches (e : Env) (ca : String) : List (String × Val) → List String → List (String × Val)
  | st, [] => st
  | st, lang :: rest =>
      let st' :=
        match e.fetch (langURL ca lang) with
        | .ok body => if body.truthy then cfgInit e.defaults st body lang else st
        | .err => st
      runFetches e ca st' rest

/-- Whether some language's fetch rejects (each rejection's `catch`
handler calls `reject()` on the deferred). -/
def anyFetchErr (e : Env) (ca : String) (langs : List String) : Bool :=
  langs.any (fun l =>
    match e.fetch (langURL ca l) with
    | .err => true
    | .ok _ => false)

/-- Value a language's fetch writes into the store, if any: `some` exactly
when the fetch resolves with truthy data. -/
def writeVal (e : Env) (ca : String) (l : String) : Option Val :=
  match e.fetch (langURL ca l) with
  | .ok body => if body.truthy then some (cfgMerge e.defaults body) else none
  | .err => none

/-- Everything observable about one run of the `initialize` executor once
every issued promise has settled. -/
structure InitOutcome where
  store : List (String × Val)
  settled : POutcome
  fetched : List String
  isInit : Bool

/-- The body of `initialize`'s `$q` executor, evaluated to its final
settled state:

* a missing or empty (falsy) `th-config` attribute runs
  `configInitialized(\x7b\x7d, 'en')` and returns without ever calling
  `fulfill` or `reject` — the handle stays pending and `isInitialized` is
  never set;
* a parseable attribute first runs `configInitialized(configJson, 'en')`;
  if the parsed value is truthy the promise fan-out is skipped
  (`promises = [$q.resolve(null)]`) and `$q.all` fulfills at once;
* otherwise (parse threw, or parsed falsy) one `$http.get` per language is
  issued on the `$LANG`-substituted attribute; each truthy response body
  is merged and stored, each rejection calls `reject()`; `$q.all` of the
  per-language promises always resolves (the `catch` handlers swallow the
  rejections), so it then sets `isInitialized` and calls `fulfill`, which
  is a no-op when a `reject()` already settled the deferred. -/
def runInit (e : Env) : InitOutcome :=
  match e.configAttr with
  | none =>
      { store := cfgInit e.defaults [] (Val.vobj .nil) "en"
        settled := .pending
        fetched := []
        isInit := false }
  | some ca =>
      if ca = "" then
        { store := cfgInit e.defaults [] (Val.vobj .nil) "en"
          settled := .pending
          fetched := []
          isInit := false }
      else
        let configJson := e.parse ca
        let store0 :=
          match configJson with
          | some c => cfgInit e.defaults [] c "en"
          | none => []
        let langs := declaredLangs e
        let inlineOk :=
          match configJson with
          | some c => c.truthy
          | none => false
        if inlineOk then
          { store := store0, settled := .resolved, fetched := [], isInit := true }
        else
          { store := runFetches e ca store0 langs
            settled := if anyFetchErr e ca langs then .rejected else .resolved
            fetched := langs.map (langURL ca)
            isInit := true }

/-- Module-level state of the service closure: the memoized
`initializePromise` and (for the at-most-once property) a count of how
many times the resolution logic actually ran. -/
structure SvcState where
  initPromise : Option InitOutcome
  execCount : Nat

/-- Result of `angular.fromJson` on the `rv-langs` attribute when it does
not throw and is truthy: either an array (elements spelled as the strings
they coerce to in `configAttr.replace`), or a truthy non-array JSON value
(a number, non-empty string, or object — e.g. `rv-langs="5"`), on which
`langs.map` is not a function and throws a TypeError. -/
inductive LangsParse where
  | arr : List String → LangsParse
  | nonArrayTruthy : LangsParse

/-- Extended environment: identical to `Env` except that the
language-list parse oracle can also report a truthy non-array value,
which `Env.parseLangs : String → Option (List String)` cannot represent
(`none` still covers a throw or a falsy result). -/
structure EnvX where
  defaults : Val
  configAttr : Option String
  langAttr : Option String
  parse : String → Option Val
  parseLangs : String → Option LangsParse
  fetch : String → FetchOutcome

/-- Restriction of an extended environment to `Env`: every field is kept;
a truthy non-array language-list parse, unrepresentable in `Env`, maps to
`none`.  It is used below only to reuse the fetch fold `runFetches` and
`anyFetchErr`, which consult nothing but `defaults` and `fetch`, on which
the two environments agree exactly. -/
def EnvX.toEnv (e : EnvX) : Env :=
  { defaults := e.defaults
    configAttr := e.configAttr
    langAttr := e.langAttr
    parse := e.parse
    parseLangs := fun s =>
      match e.parseLangs s with
      | some (.arr ls) => some ls
      | _ => none
    fetch := e.fetch }

/-- The `langs` value reaching `langs.map` in the extended environment:
`some` is the array used for the fan-out (the default `["en","fr"]` when
the attribute is absent, falsy, unparsable or parses falsy), `none` marks
a truthy non-array, on which `langs.map` throws. -/
def declaredLangsX (e : EnvX) : Option (List String) :=
  match e.langAttr with
  | some la =>
      if la = "" then some ["en", "fr"]
      else
        match e.parseLangs la with
        | some (.arr ls) => some ls
        | some .nonArrayTruthy => none
        | none => some ["en", "fr"]
  | none => some ["en", "fr"]

/-- The `initialize` executor over the extended environment.  `some h` is
the settled outcome as in `runInit`; `none` models the executor throwing:
when the config did not parse truthy (so `promises = langs.map(...)` is
evaluated) and `langs` is a truthy non-array, `langs.map` throws a
TypeError which escapes `$q`'s resolver — AngularJS `$q(resolver)` invokes
the resolver synchronously without a try/catch — so the exception
propagates out of the `$q(...)` expression and the assignment
`initializePromise = ...` never happens. -/
def runInitX (e : EnvX) : Option InitOutcome :=
  match e.configAttr with
  | none =>
      some { store := cfgInit e.defaults [] (Val.vobj .nil) "en"
             settled := .pending
             fetched := []
             isInit := false }
  | some ca =>
      if ca = "" then
        some { store := cfgInit e.defaults [] (Val.vobj .nil) "en"
               settled := .pending
               fetched := []
               isInit := false }
      else
        let configJson := e.parse ca
        let store0 :=
          match configJson with
          | some c => cfgInit e.defaults [] c "en"
          | none => []
        let inlineOk :=
          match configJson with
          | some c => c.truthy
          | none => false
        if inlineOk then
          some { store := store0, settled := .resolved, fetched := [], isInit := true }
        else
          match declaredLangsX e with
          | none => none
          | some langs =>
              some { store := runFetches e.toEnv ca store0 langs
                     settled :=
                       if anyFetchErr e.toEnv ca langs then .rejected else .resolved
                     fetched := langs.map (langURL ca)
                     isInit := true }

/-- One call of `initialize()` over the extended environment: return the
memoized handle if one exists; otherwise the executor runs (the attribute
reading and parsing happen in either case, counted by `execCount`) — if it
completes, its handle is memoized and returned; if it throws
(`runInitX e = none`), `initializePromise` is never assigned, the call
returns no handle (the TypeError reaches the caller), and the next call
will run the executor again. -/
def initOnceX (e : EnvX) (s : SvcState) : SvcState × Option InitOutcome :=
  match s.initPromise with
  | some h => (s, some h)
  | none =>
      match runInitX e with
      | some h => ({ initPromise := some h, execCount := s.execCount + 1 }, some h)
      | none => ({ initPromise := none, execCount := s.execCount + 1 }, none)

/-- `n` successive calls of `initialize()`, collecting each call's result
(`some h` = returned handle, `none` = the call threw).  Mutations of
`service.data` by a throwing run are irrelevant to the memoization claim
and not tracked here. -/
def initCallsX (e : EnvX) : Nat → SvcState → SvcState × List (Option InitOutcome)
  | 0, s => (s, [])
  | n + 1, s =>
      let (s1, r) := initOnceX e s
      let (s2, rs) := initCallsX e n s1
      (s2, r :: rs)

/-- JS `a || b` on the language tag: `$translate.proposedLanguage()` is
used unless it is absent (`none`) or the empty string. -/
def jsOrStr (p : Option String) (u : String) : String :=
  match p with
  | some s => if s = "" then u else s
  | none => u

/-- JS `tag.split('-')[0]`: the part of the tag before the first dash. -/
def primarySubtag (s : String) : String :=
  String.mk (s.data.takeWhile (fun c => !(c = '-')))

/-- `getCurrent()`: resolve the current language tag, keep its primary
subtag, and look that key up in `service.data`. -/
def getCurrent (st : List (String × Val)) (proposed : Option String) (use : String) :
    Option Val :=
  storeLookup st (primarySubtag (jsOrStr proposed use))

/-- `p.then(onFulfilled)`: pending and rejected states pass through, a
resolved state continues with the callback's result. -/
def pThen (p : POutcome) (f : Unit → POutcome) : POutcome :=
  match p with
  | .pending => .pending
  | .rejected => .rejected
  | .resolved => f ()

/-- `p.catch(handler)` where the handler returns a plain value: a
rejection is swallowed and becomes a resolution. -/
def pCatch (p : POutcome) : POutcome :=
  match p with
  | .pending => .pending
  | .rejected => .resolved
  | .resolved => .resolved

/-- `$q.all(ps)`: rejects as soon as any member rejects, resolves once all
members resolve, and stays pending otherwise. -/
def qAll (ps : List POutcome) : POutcome :=
  if ps.any (fun p => p = .rejected) then .rejected
  else if ps.any (fun p => p = .pending) then .pending
  else .resolved

/-- `ready(nextPromises)`:
`initializePromise.then(() => $q.all(nextPromises)).catch(() => \x7b\x7d)`,
as a function of the init handle's state and the states of the extra
awaitables. -/
def readyOutcome (init : POutcome) (extra : List POutcome) : POutcome :=
  pCatch (pThen init (fun _ => qAll extra))

theorem storeLookup_storeSet_self (st : List (String × Val)) (k : String) (v : Val) :
    storeLookup (storeSet st k v) k = some v := by
  induction st with
  | nil => simp [storeSet, storeLookup]
  | cons p rest ih =>
      obtain ⟨k0, v0⟩ := p
      by_cases hk : k0 = k
      · simp [storeSet, storeLookup, hk]
      · simp [storeSet, storeLookup, hk, ih]

theorem storeLookup_storeSet_ne (st : List (String × Val)) (k l : String) (v : Val)
    (h : k ≠ l) : storeLookup (storeSet st k v) l = storeLookup st l := by
  induction st with
  | nil => simp [storeSet, storeLookup, h]
  | cons p rest ih =>
      obtain ⟨k0, v0⟩ := p
      by_cases hk : k0 = k
      · subst hk
        simp [storeSet, storeLookup, h]
      · simp [storeSet, storeLookup, hk, ih]

theorem countKey_storeSet (st : List (String × Val)) (k l : String) (v : Val) :
    countKey (storeSet st k v) l =
      if k = l then Nat.max 1 (countKey st l) else countKey st l := by
  induction st with
  | nil =>
      by_cases hk : k = l <;> simp [storeSet, countKey, hk]
  | cons p rest ih =>
      obtain ⟨k0, v0⟩ := p
      by_cases h0 : k0 = k
      · subst h0
        by_cases hl : k0 = l
        · subst hl
          simp [storeSet, countKey]
        · simp [storeSet, countKey, hl]
      · by_cases hl : k0 = l
        · subst hl
          have hkl : ¬k = k0 := fun hh => h0 hh.symm
          simp [storeSet, countKey, h0, ih, hkl]
        · simp [storeSet, countKey, h0, hl, ih]

theorem Fields.lookupK_eq_none : (fs : Fields) → (k : String) → fs.hasKey k = false →
    fs.lookupK k = none
  | .nil, _, _ => rfl
  | .cons k0 v0 rest, k, h => by
      simp only [Fields.hasKey, Bool.or_eq_false_iff, decide_eq_false_iff_not] at h
      simp [Fields.lookupK, h.1, Fields.lookupK_eq_none rest k h.2]

theorem Fields.append_nil : (fs : Fields) → fs.append .nil = fs
  | .nil => rfl
  | .cons k v rest => by simp [Fields.append, Fields.append_nil rest]

theorem Fields.append_assoc : (a : Fields) → (b c : Fields) →
    (a.append b).append c = a.append (b.append c)
  | .nil, _, _ => rfl
  | .cons k v rest, b, c => by simp [Fields.append, Fields.append_assoc rest b c]

theorem Fields.hasKey_append : (a : Fields) → (b : Fields) → (k : String) →
    (a.append b).hasKey k = (a.hasKey k || b.hasKey k)
  | .nil, b, k => by simp [Fields.append, Fields.hasKey]
  | .cons k0 v0 rest, b, k => by
      by_cases h0 : k0 = k <;>
        simp [Fields.append, Fields.hasKey, h0, Fields.hasKey_append rest b k]

theorem Fields.setK_eq_append : (dfs : Fields) → (k : String) → (v : Val) →
    dfs.hasKey k = false → dfs.setK k v = dfs.append (.cons k v .nil)
  | .nil, _, _, _ => rfl
  | .cons k0 v0 rest, k, v, h => by
      simp only [Fields.hasKey, Bool.or_eq_false_iff, decide_eq_false_iff_not] at h
      simp [Fields.setK, Fields.append, h.1, Fields.setK_eq_append rest k v h.2]

theorem Fields.lookupK_setK_self : (fs : Fields) → (k : String) → (v : Val) →
    (fs.setK k v).lookupK k = some v
  | .nil, k, v => by simp [Fields.setK, Fields.lookupK]
  | .cons k0 v0 rest, k, v => by
      by_cases h0 : k0 = k
      · simp [Fields.setK, Fields.lookupK, h0]
      · simp [Fields.setK, Fields.lookupK, h0, Fields.lookupK_setK_self rest k v]

theorem Fields.lookupK_setK_ne : (fs : Fields) → (k l : String) → (v : Val) → k ≠ l →
    (fs.setK k v).lookupK l = fs.lookupK l
  | .nil, k, l, v, h => by simp [Fields.setK, Fields.lookupK, h]
  | .cons k0 v0 rest, k, l, v, h => by
      by_cases h0 : k0 = k
      · subst h0
        simp [Fields.setK, Fields.lookupK, h]
      · simp [Fields.setK, Fields.lookupK, h0, Fields.lookupK_setK_ne rest k l v h]

mutual
/-- Deep-copying a parser-shaped value into a fresh empty container
reproduces it: `angular.merge` of a value onto nothing is the value. -/
theorem nested_copy : (v : Val) → v.dnd = true → nestedVal none v = v
  | .vnull, _ => rfl
  | .vbool _, _ => rfl
  | .vnum _, _ => rfl
  | .vstr _, _ => rfl
  | .varr xs, h => by
      have hx : xs.dndAll = true := by simpa [Val.dnd] using h
      simp [nestedVal, elems_copy xs hx]
  | .vobj fs, h => by
      have h1 : fs.keysNodup = true ∧ fs.dndAll = true := by
        simpa [Val.dnd, Bool.and_eq_true] using h
      have hc := fields_copy fs h1.1 h1.2 .nil (fun _ _ => rfl)
      simp [nestedVal, hc, Fields.append]

/-- Folding a parser-shaped object into a destination whose keys are
disjoint from it appends its fields verbatim. -/
theorem fields_copy : (fs : Fields) → fs.keysNodup = true → fs.dndAll = true →
    (dfs : Fields) → (∀ k, fs.hasKey k = true → dfs.hasKey k = false) →
    mergeFields dfs fs = dfs.append fs
  | .nil, _, _, dfs, _ => by simp [mergeFields, Fields.append_nil]
  | .cons k v rest, hnd, hall, dfs, hdisj => by
      have hnd1 : rest.hasKey k = false ∧ rest.keysNodup = true := by
        simpa [Fields.keysNodup, Bool.and_eq_true, Bool.not_eq_true'] using hnd
      have hall1 : v.dnd = true ∧ rest.dndAll = true := by
        simpa [Fields.dndAll, Bool.and_eq_true] using hall
      have hdk : dfs.hasKey k = false := by
        apply hdisj
        simp [Fields.hasKey]
      have hlk : dfs.lookupK k = none := Fields.lookupK_eq_none dfs k hdk
      have hset : dfs.setK k (nestedVal (dfs.lookupK k) v) = dfs.append (.cons k v .nil) := by
        rw [hlk, nested_copy v hall1.1]
        exact Fields.setK_eq_append dfs k v hdk
      have hdisj2 : ∀ k', rest.hasKey k' = true →
          (dfs.append (.cons k v .nil)).hasKey k' = false := by
        intro k' hk'
        rw [Fields.hasKey_append]
        have hd : dfs.hasKey k' = false := by
          apply hdisj
          simp [Fields.hasKey, hk']
        have hkk : ¬k = k' := by
          intro he
          subst he
          exact absurd hk' (by simp [hnd1.1])
        simp [hd, Fields.hasKey, hkk]
      calc mergeFields dfs (.cons k v rest)
          = mergeFields (dfs.append (.cons k v .nil)) rest := by
            simp [mergeFields, hset]
        _ = (dfs.append (.cons k v .nil)).append rest :=
            fields_copy rest hnd1.2 hall1.2 _ hdisj2
        _ = dfs.append (.cons k v rest) := by
            rw [Fields.append_assoc]
            rfl

/-- Index-wise extension of an empty array by a parser-shaped array
reproduces it. -/
theorem elems_copy : (xs : ValList) → xs.dndAll = true → mergeElems .nil xs = xs
  | .nil, _ => rfl
  | .cons v rest, h => by
      have h1 : v.dnd = true ∧ rest.dndAll = true := by
        simpa [ValList.dndAll, Bool.and_eq_true] using h
      simp [mergeElems, ValList.headO, ValList.tailO, nested_copy v h1.1,
        elems_copy rest h1.2]
end

/-- Merging a parser-shaped object over the empty object copies it:
`angular.merge(\x7b\x7d, defaults)` equals the defaults. -/
theorem angularMergeTop_empty {fs : Fields} (h : (Val.vobj fs).dnd = true) :
    angularMergeTop (Val.vobj .nil) (Val.vobj fs) = Val.vobj fs := by
  have h1 : fs.keysNodup = true ∧ fs.dndAll = true := by
    simpa [Val.dnd, Bool.and_eq_true] using h
  have hc := fields_copy fs h1.1 h1.2 .nil (fun _ _ => rfl)
  simp [angularMergeTop, hc, Fields.append]

/-- With an empty (or any falsy) config, `configInitialized` stores
exactly the defaults object. -/
theorem cfgMerge_defaults_empty {fs : Fields} (h : (Val.vobj fs).dnd = true) :
    cfgMerge (Val.vobj fs) (Val.vobj .nil) = Val.vobj fs := by
  rw [cfgMerge, angularMergeTop_empty h]
  rfl

/-- Keys that the config source does not mention keep their value from the
destination (the defaults are preserved where not overridden). -/
theorem mergeFields_lookup_absent : (sfs : Fields) → (dfs : Fields) → (k : String) →
    sfs.hasKey k = false → (mergeFields dfs sfs).lookupK k = dfs.lookupK k
  | .nil, _, _, _ => rfl
  | .cons k0 v0 rest, dfs, k, h => by
      have h1 : ¬k0 = k ∧ rest.hasKey k = false := by
        simpa [Fields.hasKey, Bool.or_eq_false_iff, decide_eq_false_iff_not] using h
      calc (mergeFields dfs (.cons k0 v0 rest)).lookupK k
          = (mergeFields (dfs.setK k0 (nestedVal (dfs.lookupK k0) v0)) rest).lookupK k := by
            simp [mergeFields]
        _ = (dfs.setK k0 (nestedVal (dfs.lookupK k0) v0)).lookupK k :=
            mergeFields_lookup_absent rest _ k h1.2
        _ = dfs.lookupK k := Fields.lookupK_setK_ne dfs k0 k _ h1.1

/-- Override-wins: a key mentioned by the (parser-shaped) config source
ends up with the source's value assigned via `nestedVal` over whatever the
destination held — the source value itself when it is not a container, the
recursive merge when both sides are like-kinded containers. -/
theorem mergeFields_lookup : (sfs : Fields) → sfs.keysNodup = true →
    (dfs : Fields) → (k : String) → (v : Val) → sfs.lookupK k = some v →
    (mergeFields dfs sfs).lookupK k = some (nestedVal (dfs.lookupK k) v)
  | .cons k0 v0 rest, hnd, dfs, k, v, hl => by
      have hnd1 : rest.hasKey k0 = false ∧ rest.keysNodup = true := by
        simpa [Fields.keysNodup, Bool.and_eq_true, Bool.not_eq_true'] using hnd
      by_cases h0 : k0 = k
      · subst h0
        have hv : v0 = v := by simpa [Fields.lookupK] using hl
        subst hv
        calc (mergeFields dfs (.cons k0 v0 rest)).lookupK k0
            = (mergeFields (dfs.setK k0 (nestedVal (dfs.lookupK k0) v0)) rest).lookupK k0 := by
              simp [mergeFields]
          _ = (dfs.setK k0 (nestedVal (dfs.lookupK k0) v0)).lookupK k0 :=
              mergeFields_lookup_absent rest _ k0 hnd1.1
          _ = some (nestedVal (dfs.lookupK k0) v0) :=
              Fields.lookupK_setK_self dfs k0 _
      · have hl' : rest.lookupK k = some v := by simpa [Fields.lookupK, h0] using hl
        calc (mergeFields dfs (.cons k0 v0 rest)).lookupK k
            = (mergeFields (dfs.setK k0 (nestedVal (dfs.lookupK k0) v0)) rest).lookupK k := by
              simp [mergeFields]
          _ = some (nestedVal ((dfs.setK k0 (nestedVal (dfs.lookupK k0) v0)).lookupK k) v) :=
              mergeFields_lookup rest hnd1.2 _ k v hl'
          _ = some (nestedVal (dfs.lookupK k) v) := by
              rw [Fields.lookupK_setK_ne dfs k0 k _ h0]

/-- Store lookup after the whole fetch fan-out: a language that some list
entry successfully fetched truthy data for holds the merged value its
(deterministic) fetch produced; every other key is untouched. -/
theorem runFetches_lookup (e : Env) (ca : String) :
    ∀ (langs : List String) (st : List (String × Val)) (l : String),
    storeLookup (runFetches e ca st langs) l =
      if l ∈ langs ∧ (writeVal e ca l).isSome then writeVal e ca l
      else storeLookup st l := by
  intro langs
  induction langs with
  | nil => intro st l; simp [runFetches]
  | cons lang rest ih =>
      intro st l
      by_cases hmem : l ∈ rest ∧ (writeVal e ca l).isSome
      · cases hf : e.fetch (langURL ca lang) with
        | ok body =>
            by_cases ht : body.truthy
            · simp only [runFetches, hf, ht, if_pos]
              rw [ih]
              simp [hmem, List.mem_cons, hmem.1]
            · simp only [runFetches, hf, ht, if_neg]
              rw [ih]
              simp [hmem, List.mem_cons, hmem.1]
        | err =>
            simp only [runFetches, hf]
            rw [ih]
            simp [hmem, List.mem_cons, hmem.1]
      · cases hf : e.fetch (langURL ca lang) with
        | ok body =>
            by_cases ht : body.truthy
            · by_cases hll : l = lang
              · subst hll
                have hw : writeVal e ca l = some (cfgMerge e.defaults body) := by
                  simp [writeVal, hf, ht]
                simp only [runFetches, hf, ht, if_pos]
                rw [ih]
                simp only [hmem, if_neg, not_false_eq_true]
                rw [cfgInit, storeLookup_storeSet_self]
                simp [hw, List.mem_cons]
              · simp only [runFetches, hf, ht, if_pos]
                rw [ih]
                simp only [hmem, if_neg, not_false_eq_true]
                rw [cfgInit, storeLookup_storeSet_ne st lang l _ (fun h => hll h.symm)]
                have : ¬(l ∈ lang :: rest ∧ (writeVal e ca l).isSome) := by
                  intro hc
                  rcases hc with ⟨hm, hs⟩
                  rcases List.mem_cons.mp hm with h1 | h1
                  · exact hll h1
                  · exact hmem ⟨h1, hs⟩
                rw [if_neg (by simpa [List.mem_cons] using this)]
            · have hw : writeVal e ca lang = none := by simp [writeVal, hf, ht]
              simp only [runFetches, hf, ht, if_neg]
              rw [ih]
              simp only [hmem, if_neg, not_false_eq_true]
              have : ¬(l ∈ lang :: rest ∧ (writeVal e ca l).isSome) := by
                intro hc
                rcases hc with ⟨hm, hs⟩
                rcases List.mem_cons.mp hm with h1 | h1
                · subst h1; simp [hw] at hs
                · exact hmem ⟨h1, hs⟩
              rw [if_neg this]
              simp
        | err =>
            have hw : writeVal e ca lang = none := by simp [writeVal, hf]
            simp only [runFetches, hf]
            rw [ih]
            simp only [hmem, if_neg, not_false_eq_true]
            have : ¬(l ∈ lang :: rest ∧ (writeVal e ca l).isSome) := by
              intro hc
              rcases hc with ⟨hm, hs⟩
              rcases List.mem_cons.mp hm with h1 | h1
              · subst h1; simp [hw] at hs
              · exact hmem ⟨h1, hs⟩
            rw [if_neg this]

/-- Entry count after the fetch fan-out: a language written at least once
has exactly one entry (assignment by key never duplicates an entry), other
keys keep their count. -/
theorem runFetches_count (e : Env) (ca : String) :
    ∀ (langs : List String) (st : List (String × Val)) (l : String),
    countKey (runFetches e ca st langs) l =
      if l ∈ langs ∧ (writeVal e ca l).isSome then Nat.max 1 (countKey st l)
      else countKey st l := by
  intro langs
  induction langs with
  | nil => intro st l; simp [runFetches]
  | cons lang rest ih =>
      intro st l
      have hstep : ∀ st' : List (String × Val),
          runFetches e ca st' (lang :: rest) =
            runFetches e ca
              (match e.fetch (langURL ca lang) with
               | .ok body => if body.truthy then cfgInit e.defaults st' body lang else st'
               | .err => st') rest := fun _ => rfl
      rw [hstep]
      cases hf : e.fetch (langURL ca lang) with
      | ok body =>
          by_cases ht : body.truthy
          · have hw : writeVal e ca lang = some (cfgMerge e.defaults body) := by
              simp [writeVal, hf, ht]
            simp only [hf, ht, if_pos]
            rw [ih]
            rw [cfgInit, countKey_storeSet]
            by_cases hll : l = lang
            · subst hll
              by_cases hr : l ∈ rest
              · simp [hr, hw, List.mem_cons, Nat.max_comm]
              · simp [hr, hw, List.mem_cons]
            · have hlll : ¬lang = l := fun h => hll h.symm
              by_cases hr : l ∈ rest ∧ (writeVal e ca l).isSome
              · simp [hr, hlll, List.mem_cons, hr.1]
              · have : ¬(l ∈ lang :: rest ∧ (writeVal e ca l).isSome = true) := by
                  intro hc
                  rcases hc with ⟨hm, hs⟩
                  rcases List.mem_cons.mp hm with h1 | h1
                  · exact hll h1
                  · exact hr ⟨h1, hs⟩
                rw [if_neg hr, if_neg hlll, if_neg this]
          · have hw : writeVal e ca lang = none := by simp [writeVal, hf, ht]
            simp only [hf, ht, if_neg, Bool.false_eq_true, if_false]
            rw [ih]
            by_cases hr : l ∈ rest ∧ (writeVal e ca l).isSome
            · simp [hr, List.mem_cons, hr.1]
            · have : ¬(l ∈ lang :: rest ∧ (writeVal e ca l).isSome = true) := by
                intro hc
                rcases hc with ⟨hm, hs⟩
                rcases List.mem_cons.mp hm with h1 | h1
                · subst h1; simp [hw] at hs
                · exact hr ⟨h1, hs⟩
              rw [if_neg hr, if_neg this]
      | err =>
          have hw : writeVal e ca lang = none := by simp [writeVal, hf]
          simp only [hf]
          rw [ih]
          by_cases hr : l ∈ rest ∧ (writeVal e ca l).isSome
          · simp [hr, List.mem_cons, hr.1]
          · have : ¬(l ∈ lang :: rest ∧ (writeVal e ca l).isSome = true) := by
              intro hc
              rcases hc with ⟨hm, hs⟩
              rcases List.mem_cons.mp hm with h1 | h1
              · subst h1; simp [hw] at hs
              · exact hr ⟨h1, hs⟩
            rw [if_neg hr, if_neg this]

/-- A rejection among the per-language fetches is exactly a list entry
whose fetch errs. -/
theorem anyFetchErr_iff (e : Env) (ca : String) (langs : List String) :
    anyFetchErr e ca langs = true ↔ ∃ l ∈ langs, e.fetch (langURL ca l) = .err := by
  rw [anyFetchErr, List.any_eq_true]
  constructor
  · rintro ⟨l, hl, hm⟩
    refine ⟨l, hl, ?_⟩
    cases hf : e.fetch (langURL ca l) with
    | ok body => rw [hf] at hm; simp at hm
    | err => rfl
  · rintro ⟨l, hl, hm⟩
    exact ⟨l, hl, by rw [hm]⟩

/-- Unfolding equation of `firstIdx`. -/
theorem firstIdx_def (s pat : List Char) :
    firstIdx s pat =
      if pat.isPrefixOf s then some 0
      else
        match s with
        | [] => none
        | _ :: rest => Option.map (· + 1) (firstIdx rest pat) := by
  rw [firstIdx.eq_def]

/-- A replacement string without a dollar character expands to itself. -/
theorem substChars_noDollar (m pre post : List Char) : (repl : List Char) →
    repl.all (fun c => !(c = '$')) = true → substChars m pre post repl = repl
  | [], _ => rfl
  | [_], _ => rfl
  | c :: d :: rest2, h => by
      have h' : ¬c = '$' ∧ ((d :: rest2).all (fun x => !(x = '$')) = true) := by
        simp only [List.all_cons, Bool.and_eq_true, Bool.not_eq_true',
          decide_eq_false_iff_not] at h ⊢
        exact ⟨h.1, h.2.1, h.2.2⟩
      simp [substChars, h'.1, substChars_noDollar m pre post (d :: rest2) h'.2]

/-- Where the pattern does not occur, the literal first-occurrence
replacement is the identity. -/
theorem specReplaceFirstL_no_match (pat repl : List Char) : (s : List Char) →
    firstIdx s pat = none → specReplaceFirstL pat repl s = s
  | [], h => by
      rw [firstIdx_def] at h
      by_cases hp : pat.isPrefixOf ([] : List Char)
      · simp [hp] at h
      · simp [specReplaceFirstL, hp]
  | c :: rest, h => by
      rw [firstIdx_def] at h
      by_cases hp : pat.isPrefixOf (c :: rest)
      · simp [hp] at h
      · simp only [hp, if_false] at h
        have hr : firstIdx rest pat = none := by
          cases hfi : firstIdx rest pat with
          | none => rfl
          | some i => rw [hfi] at h; simp at h
        simp [specReplaceFirstL, hp, specReplaceFirstL_no_match pat repl rest hr]

/-- For replacement strings without a dollar (in particular ordinary
language codes), JS `replace` coincides with the literal first-occurrence
substitution the spec describes. -/
theorem replaceFirstL_eq_spec (pat repl : List Char)
    (hnd : repl.all (fun c => !(c = '$')) = true) : (s : List Char) →
    replaceFirstL s pat repl = specReplaceFirstL pat repl s
  | [] => by
      have hsub : ∀ pre post, substChars pat pre post repl = repl :=
        fun pre post => substChars_noDollar pat pre post repl hnd
      by_cases hp : pat.isPrefixOf ([] : List Char)
      · have hfi : firstIdx [] pat = some 0 := by
          rw [firstIdx_def]; simp [hp]
        rw [replaceFirstL, hfi]
        simp [specReplaceFirstL, hp, hsub]
      · have hfi : firstIdx [] pat = none := by
          rw [firstIdx_def]; simp [hp]
        rw [replaceFirstL, hfi]
        simp [specReplaceFirstL, hp]
  | c :: rest => by
      have hsub : ∀ pre post, substChars pat pre post repl = repl :=
        fun pre post => substChars_noDollar pat pre post repl hnd
      by_cases hp : pat.isPrefixOf (c :: rest)
      · have hfi : firstIdx (c :: rest) pat = some 0 := by
          rw [firstIdx_def]; simp [hp]
        rw [replaceFirstL, hfi]
        simp [specReplaceFirstL, hp, hsub]
      · cases hr : firstIdx rest pat with
        | none =>
            have hfi : firstIdx (c :: rest) pat = none := by
              rw [firstIdx_def]; simp [hp, hr]
            rw [replaceFirstL, hfi]
            simp [specReplaceFirstL, hp, specReplaceFirstL_no_match pat repl rest hr]
        | some i =>
            have hfi : firstIdx (c :: rest) pat = some (i + 1) := by
              rw [firstIdx_def]; simp [hp, hr]
            have hih := replaceFirstL_eq_spec pat repl hnd rest
            have h2 : specReplaceFirstL pat repl rest =
                rest.take i ++ repl ++ rest.drop (i + pat.length) := by
              rw [← hih, replaceFirstL, hr]
              simp [hsub]
            have h1 : replaceFirstL (c :: rest) pat repl =
                c :: (rest.take i ++ repl ++ rest.drop (i + pat.length)) := by
              rw [replaceFirstL, hfi]
              simp only [hsub]
              rw [List.take_succ_cons]
              have hnum : i + 1 + pat.length = (i + pat.length) + 1 := by omega
              rw [hnum, List.drop_succ_cons]
              simp
            rw [h1]
            simp [specReplaceFirstL, hp, h2]

/-- A key with no entry looks up to `undefined`. -/
theorem storeLookup_none_of_count0 : (st : List (String × Val)) → (l : String) →
    countKey st l = 0 → storeLookup st l = none
  | [], _, _ => rfl
  | (k0, v0) :: rest, l, h => by
      by_cases hk : k0 = l
      · subst hk
        simp [countKey] at h
      · have hr : countKey rest l = 0 := by simpa [countKey, hk] using h
        simp [storeLookup, hk, storeLookup_none_of_count0 rest l hr]

/-- Once the handle is memoized, every further call returns it and leaves
the service state untouched. -/
theorem initCallsX_memo (e : EnvX) : ∀ (n : Nat) (h : InitOutcome) (c : Nat),
    initCallsX e n { initPromise := some h, execCount := c } =
      ({ initPromise := some h, execCount := c }, List.replicate n (some h)) := by
  intro n
  induction n with
  | zero => intro h c; rfl
  | succ m ih =>
      intro h c
      simp [initCallsX, initOnceX, ih, List.replicate]

/-- When the executor completes, `n ≥ 1` fresh calls run it exactly once
and hand every caller the one memoized handle. -/
theorem initCallsX_fresh (e : EnvX) (h : InitOutcome) (hok : runInitX e = some h) :
    ∀ (n : Nat), 1 ≤ n →
    initCallsX e n { initPromise := none, execCount := 0 } =
      ({ initPromise := some h, execCount := 1 },
        List.replicate n (some h)) := by
  intro n hn
  cases n with
  | zero => omega
  | succ m =>
      simp [initCallsX, initOnceX, hok, initCallsX_memo, List.replicate]

/-- When the executor throws, nothing is ever memoized: each of `n` calls
runs the resolution logic again and returns no handle. -/
theorem initCallsX_throw (e : EnvX) (hthrow : runInitX e = none) :
    ∀ (n c : Nat),
    initCallsX e n { initPromise := none, execCount := c } =
      ({ initPromise := none, execCount := c + n },
        List.replicate n (none : Option InitOutcome)) := by
  intro n
  induction n with
  | zero => intro c; rfl
  | succ m ih =>
      intro c
      have harith : c + 1 + m = c + (m + 1) := by omega
      simp [initCallsX, initOnceX, hthrow, ih, List.replicate, harith]

/-- Reduction of the executor in the URL-template branch (attribute
present and truthy, inline parse throws). -/
theorem runInit_url (e : Env) (ca : String) (hca : e.configAttr = some ca)
    (hne : ca ≠ "") (hp : e.parse ca = none) :
    runInit e =
      { store := runFetches e ca [] (declaredLangs e)
        settled := if anyFetchErr e ca (declaredLangs e) then .rejected else .resolved
        fetched := (declaredLangs e).map (langURL ca)
        isInit := true } := by
  simp [runInit, hca, hne, hp]

/-- Reduction of the executor in the inline branch (attribute parses to a
truthy value). -/
theorem runInit_inline (e : Env) (ca : String) (c : Val) (hca : e.configAttr = some ca)
    (hne : ca ≠ "") (hp : e.parse ca = some c) (ht : c.truthy = true) :
    runInit e =
      { store := [("en", cfgMerge e.defaults c)]
        settled := .resolved
        fetched := []
        isInit := true } := by
  simp [runInit, hca, hne, hp, ht, cfgInit, storeSet]

/-- C1: when no config source attribute is declared, the executor does
merge the defaults alone into the store under language `"en"` — but the
returned handle does NOT complete: the `else` branch of `initialize` never
calls `fulfill`, so the promise stays pending forever and `isInitialized`
is never set.  (The spec's "complete immediately" is the evident intent;
the missing `fulfill()` call is the code bug.) -/
theorem c1_absent_config (e : Env) (dfs : Fields)
    (hca : e.configAttr = none) (hd : e.defaults = Val.vobj dfs)
    (hdnd : (Val.vobj dfs).dnd = true) :
    (runInit e).store = [("en", Val.vobj dfs)] ∧
    (runInit e).settled = POutcome.pending ∧
    (runInit e).fetched = [] ∧
    (runInit e).isInit = false := by
  refine ⟨?_, ?_, ?_, ?_⟩ <;>
    simp [runInit, hca, cfgInit, storeSet, hd, cfgMerge_defaults_empty hdnd]

/-- Concrete environment for the C1 witness: no `th-config` attribute. -/
def c1env : Env :=
  { defaults := Val.vobj (.cons "a" (.vnum 1) .nil)
    configAttr := none
    langAttr := none
    parse := fun _ => none
    parseLangs := fun _ => none
    fetch := fun _ => .err }

theorem c1_witness :
    (runInit c1env).store = [("en", Val.vobj (.cons "a" (.vnum 1) .nil))] ∧
    (runInit c1env).settled = POutcome.pending ∧
    (runInit c1env).fetched = [] ∧
    (runInit c1env).isInit = false :=
  c1_absent_config c1env (.cons "a" (.vnum 1) .nil) rfl rfl rfl

/-- Environment refuting C3 as stated: `th-config="cfg.$LANG.json"` (not
valid JSON, so `configJson` stays undefined) and `rv-langs="5"` —
`angular.fromJson("5")` is the truthy non-array `5`, `if (!langs)` is
skipped, and `promises = langs.map(...)` throws a TypeError; `$q(resolver)`
invokes the resolver synchronously without a try/catch, so the exception
escapes before `initializePromise` is assigned. -/
def c3cex : EnvX :=
  { defaults := Val.vobj .nil
    configAttr := some "cfg.$LANG.json"
    langAttr := some "5"
    parse := fun _ => none
    parseLangs := fun s => if s = "5" then some .nonArrayTruthy else none
    fetch := fun _ => .err }

/-- C3 counterexample: with `rv-langs="5"`, two successive `initialize()`
calls run the resolution logic twice (`execCount = 2`, refuting
at-most-once execution), nothing is ever memoized, and neither call
returns a handle (both results are `none`: the TypeError reaches the
caller), refuting "all N calls return the same handle". -/
theorem c3_counterexample :
    (initCallsX c3cex 2 { initPromise := none, execCount := 0 }).1.execCount = 2 ∧
    (initCallsX c3cex 2 { initPromise := none, execCount := 0 }).1.initPromise = none ∧
    (initCallsX c3cex 2 { initPromise := none, execCount := 0 }).2 =
      [none, none] := by
  refine ⟨rfl, rfl, rfl⟩

/-- C3 amended: whenever the first call's executor completes — the
declared language list is absent, falsy, unparsable, or parses to an
array — `initialize()` is idempotent: all of `n ≥ 1` calls return the one
memoized handle and the resolution logic runs exactly once.  But when the
executor throws (truthy non-array `rv-langs` while the config is not
truthy inline JSON), `initializePromise` is never assigned: every one of
the `n` calls re-runs the resolution logic and none returns a handle. -/
theorem c3_memoized_or_throws (e : EnvX) (n : Nat) (hn : 1 ≤ n) :
    (∀ h, runInitX e = some h →
      (initCallsX e n { initPromise := none, execCount := 0 }).2 =
        List.replicate n (some h) ∧
      (initCallsX e n { initPromise := none, execCount := 0 }).1.execCount = 1 ∧
      (initCallsX e n { initPromise := none, execCount := 0 }).2.length = n) ∧
    (runInitX e = none →
      (initCallsX e n { initPromise := none, execCount := 0 }).2 =
        List.replicate n (none : Option InitOutcome) ∧
      (initCallsX e n { initPromise := none, execCount := 0 }).1.execCount = n) := by
  constructor
  · intro h hok
    rw [initCallsX_fresh e h hok n hn]
    simp
  · intro hthrow
    rw [initCallsX_throw e hthrow n 0]
    simp

/-- Concrete non-throwing environment for the C3 witness (no config
attribute: the executor completes with the pending handle of the C1
branch). -/
def c3wok : EnvX :=
  { defaults := Val.vobj .nil
    configAttr := none
    langAttr := none
    parse := fun _ => none
    parseLangs := fun _ => none
    fetch := fun _ => .err }

/-- The handle `runInitX c3wok` completes with. -/
def c3wh : InitOutcome :=
  { store := [("en", Val.vobj .nil)]
    settled := POutcome.pending
    fetched := []
    isInit := false }

theorem c3_witness :
    ((initCallsX c3wok 3 { initPromise := none, execCount := 0 }).2 =
        List.replicate 3 (some c3wh) ∧
      (initCallsX c3wok 3 { initPromise := none, execCount := 0 }).1.execCount = 1 ∧
      (initCallsX c3wok 3 { initPromise := none, execCount := 0 }).2.length = 3) ∧
    ((initCallsX c3cex 3 { initPromise := none, execCount := 0 }).2 =
        List.replicate 3 (none : Option InitOutcome) ∧
      (initCallsX c3cex 3 { initPromise := none, execCount := 0 }).1.execCount = 3) :=
  ⟨(c3_memoized_or_throws c3wok 3 (by decide)).1 c3wh rfl,
    (c3_memoized_or_throws c3cex 3 (by decide)).2 rfl⟩

/-- Concrete environment for C7: no config attribute declared. -/
def c7env : Env :=
  { defaults := Val.vobj (.cons "a" (.vnum 1) .nil)
    configAttr := none
    langAttr := none
    parse := fun _ => none
    parseLangs := fun _ => none
    fetch := fun _ => .err }

/-- C7: `ready([])` does NOT always settle.  When no config attribute is
declared the initialization handle never settles (the C1 bug), so
`ready([])` — `initializePromise.then(...).catch(...)` — stays pending
forever; the claim's "never hangs" fails.  The part of the claim that the
code does honour is that a *rejected* initialization handle is caught and
`ready` still resolves (third conjunct). -/
theorem c7_ready_hangs :
    (runInit c7env).settled = POutcome.pending ∧
    readyOutcome (runInit c7env).settled [] = POutcome.pending ∧
    readyOutcome POutcome.rejected [] = POutcome.resolved := by
  refine ⟨rfl, rfl, rfl⟩

/-- C9: `getCurrent()` prefers the proposed language when one is reported
(JS `||`, so a non-empty string), else the committed one; it keeps only
the primary subtag before the dash (`"fr-CA"` resolves via `"fr"`), and a
key that was never populated yields an absent result. -/
theorem c9_getCurrent (st : List (String × Val)) (p u : String) (hp : p ≠ "") :
    getCurrent st (some p) u = storeLookup st (primarySubtag p) ∧
    getCurrent st none u = storeLookup st (primarySubtag u) ∧
    primarySubtag "fr-CA" = "fr" ∧
    (∀ l, countKey st l = 0 → storeLookup st l = none) := by
  refine ⟨?_, rfl, rfl, fun l h => storeLookup_none_of_count0 st l h⟩
  simp [getCurrent, jsOrStr, hp]

theorem c9_witness :
    getCurrent [("fr", Val.vnull)] (some "fr-CA") "en" =
      storeLookup [("fr", Val.vnull)] (primarySubtag "fr-CA") ∧
    getCurrent [("fr", Val.vnull)] none "en" =
      storeLookup [("fr", Val.vnull)] (primarySubtag "en") ∧
    primarySubtag "fr-CA" = "fr" ∧
    (∀ l, countKey [("fr", Val.vnull)] l = 0 →
      storeLookup [("fr", Val.vnull)] l = none) :=
  c9_getCurrent [("fr", Val.vnull)] "fr-CA" "en" (by decide)

/-- C2: in the URL-template branch, one failing language fetch makes the
handle settle rejected (the `catch` handler's `reject()` fires before the
`$q.all` fulfill, and `$q` settles a deferred once, so the single settled
state is `rejected`), while every language whose fetch succeeded with
truthy data still has its merged entry in the store. -/
theorem c2_fetch_failure_rejects (e : Env) (ca l0 : String)
    (hca : e.configAttr = some ca) (hne : ca ≠ "") (hp : e.parse ca = none)
    (hl0 : l0 ∈ declaredLangs e) (hf0 : e.fetch (langURL ca l0) = .err) :
    (runInit e).settled = POutcome.rejected ∧
    (∀ l body, l ∈ declaredLangs e → e.fetch (langURL ca l) = .ok body →
      body.truthy = true →
      storeLookup (runInit e).store l = some (cfgMerge e.defaults body)) := by
  rw [runInit_url e ca hca hne hp]
  constructor
  · have herr : anyFetchErr e ca (declaredLangs e) = true :=
      (anyFetchErr_iff e ca (declaredLangs e)).mpr ⟨l0, hl0, hf0⟩
    simp [herr]
  · intro l body hl hf ht
    have hw : writeVal e ca l = some (cfgMerge e.defaults body) := by
      simp [writeVal, hf, ht]
    have := runFetches_lookup e ca (declaredLangs e) [] l
    simp only [this]
    rw [if_pos ⟨hl, by simp [hw]⟩, hw]

/-- Concrete environment for the C2 witness: `"en"` succeeds with data,
`"fr"` fails. -/
def c2env : Env :=
  { defaults := Val.vobj (.cons "a" (.vnum 1) .nil)
    configAttr := some "cfg.$LANG.json"
    langAttr := none
    parse := fun _ => none
    parseLangs := fun _ => none
    fetch := fun u => if u = "cfg.en.json" then .ok (Val.vobj (.cons "b" (.vnum 2) .nil)) else .err }

theorem c2_witness :
    (runInit c2env).settled = POutcome.rejected ∧
    (∀ l body, l ∈ declaredLangs c2env →
      c2env.fetch (langURL "cfg.$LANG.json" l) = .ok body →
      body.truthy = true →
      storeLookup (runInit c2env).store l =
        some (cfgMerge c2env.defaults body)) :=
  c2_fetch_failure_rejects c2env "cfg.$LANG.json" "fr" rfl (by decide) rfl
    (by decide) rfl

/-- Concrete environment refuting C5: both fetches resolve, but the
`"fr"` response body is `null` (falsy), so `if (data.data)` skips the
store write for `"fr"` while `$q.all` still fulfills the handle. -/
def c5cex : Env :=
  { defaults := Val.vobj .nil
    configAttr := some "cfg.$LANG.json"
    langAttr := none
    parse := fun _ => none
    parseLangs := fun _ => none
    fetch := fun u =>
      if u = "cfg.en.json" then .ok (Val.vobj (.cons "x" (.vnum 1) .nil))
      else .ok Val.vnull }

/-- C5 counterexample: the handle resolves successfully although the
requested language `"fr"` has no `ConfigStore` entry at all — a resolution
with only some of the requested languages populated, which the claim rules
out. -/
theorem c5_counterexample :
    (runInit c5cex).settled = POutcome.resolved ∧
    declaredLangs c5cex = ["en", "fr"] ∧
    countKey (runInit c5cex).store "en" = 1 ∧
    countKey (runInit c5cex).store "fr" = 0 ∧
    storeLookup (runInit c5cex).store "fr" = none := by
  refine ⟨rfl, rfl, rfl, rfl, rfl⟩

/-- C5 amended: in the URL-template branch the handle resolves iff no
fetch failed; on resolution each requested language whose fetch carried
truthy data has exactly one store entry, but a language whose fetch
resolved with a falsy body is silently left unpopulated (no entry), so a
successful resolution need not populate every requested language; and the
handle always settles one way or the other. -/
theorem c5_characterization (e : Env) (ca : String)
    (hca : e.configAttr = some ca) (hne : ca ≠ "") (hp : e.parse ca = none) :
    ((runInit e).settled = POutcome.resolved ↔
      ∀ l ∈ declaredLangs e, e.fetch (langURL ca l) ≠ .err) ∧
    (∀ l, storeLookup (runInit e).store l =
      if l ∈ declaredLangs e ∧ (writeVal e ca l).isSome then writeVal e ca l
      else none) ∧
    (∀ l, countKey (runInit e).store l =
      if l ∈ declaredLangs e ∧ (writeVal e ca l).isSome then 1 else 0) ∧
    ((runInit e).settled = POutcome.resolved ∨
      (runInit e).settled = POutcome.rejected) := by
  rw [runInit_url e ca hca hne hp]
  refine ⟨?_, ?_, ?_, ?_⟩
  · constructor
    · intro hres
      intro l hl hf
      have herr : anyFetchErr e ca (declaredLangs e) = true :=
        (anyFetchErr_iff e ca (declaredLangs e)).mpr ⟨l, hl, hf⟩
      simp [herr] at hres
    · intro hno
      have herr : anyFetchErr e ca (declaredLangs e) = false := by
        by_contra hc
        have : anyFetchErr e ca (declaredLangs e) = true := by
          revert hc
          cases anyFetchErr e ca (declaredLangs e) <;> simp
        rcases (anyFetchErr_iff e ca (declaredLangs e)).mp this with ⟨l, hl, hf⟩
        exact hno l hl hf
      simp [herr]
  · intro l
    have := runFetches_lookup e ca (declaredLangs e) [] l
    simpa [storeLookup] using this
  · intro l
    have := runFetches_count e ca (declaredLangs e) [] l
    simpa [countKey] using this
  · by_cases herr : anyFetchErr e ca (declaredLangs e) = true
    · right; simp [herr]
    · left
      have : anyFetchErr e ca (declaredLangs e) = false := by
        revert herr
        cases anyFetchErr e ca (declaredLangs e) <;> simp
      simp [this]

/-- Concrete environment for the C5 witness. -/
def c5wenv : Env :=
  { defaults := Val.vobj .nil
    configAttr := some "c.$LANG.json"
    langAttr := none
    parse := fun _ => none
    parseLangs := fun _ => none
    fetch := fun u =>
      if u = "c.en.json" then .ok (Val.vobj (.cons "x" (.vnum 1) .nil))
      else .ok Val.vnull }

theorem c5_witness :
    ((runInit c5wenv).settled = POutcome.resolved ↔
      ∀ l ∈ declaredLangs c5wenv, c5wenv.fetch (langURL "c.$LANG.json" l) ≠ .err) ∧
    (∀ l, storeLookup (runInit c5wenv).store l =
      if l ∈ declaredLangs c5wenv ∧ (writeVal c5wenv "c.$LANG.json" l).isSome
      then writeVal c5wenv "c.$LANG.json" l else none) ∧
    (∀ l, countKey (runInit c5wenv).store l =
      if l ∈ declaredLangs c5wenv ∧ (writeVal c5wenv "c.$LANG.json" l).isSome
      then 1 else 0) ∧
    ((runInit c5wenv).settled = POutcome.resolved ∨
      (runInit c5wenv).settled = POutcome.rejected) :=
  c5_characterization c5wenv "c.$LANG.json" rfl (by decide) rfl

/-- C8: a present config attribute that is not valid JSON does not abort
initialization: the raw attribute string itself becomes the URL template,
fanned out across the default language list `["en", "fr"]` whenever the
language attribute is missing, falsy or unparsable. -/
theorem c8_fallthrough (e : Env) (ca : String)
    (hca : e.configAttr = some ca) (hne : ca ≠ "") (hp : e.parse ca = none)
    (hla : e.langAttr = none ∨
      ∃ la, e.langAttr = some la ∧ (la = "" ∨ e.parseLangs la = none)) :
    declaredLangs e = ["en", "fr"] ∧
    (runInit e).fetched = [langURL ca "en", langURL ca "fr"] ∧
    (runInit e).isInit = true := by
  have hdl : declaredLangs e = ["en", "fr"] := by
    rcases hla with h | ⟨la, hla1, h2⟩
    · simp [declaredLangs, h]
    · rcases h2 with h2 | h2
      · simp [declaredLangs, hla1, h2]
      · by_cases hle : la = "" <;> simp [declaredLangs, hla1, hle, h2]
  rw [runInit_url e ca hca hne hp, hdl]
  simp

/-- Concrete environment for the C8 witness: malformed inline JSON and a
malformed language attribute. -/
def c8env : Env :=
  { defaults := Val.vobj .nil
    configAttr := some "conf.$LANG.json"
    langAttr := some "notjson"
    parse := fun _ => none
    parseLangs := fun _ => none
    fetch := fun _ => .ok (Val.vobj .nil) }

theorem c8_witness :
    declaredLangs c8env = ["en", "fr"] ∧
    (runInit c8env).fetched =
      [langURL "conf.$LANG.json" "en", langURL "conf.$LANG.json" "fr"] ∧
    (runInit c8env).isInit = true :=
  c8_fallthrough c8env "conf.$LANG.json" rfl (by decide) rfl
    (Or.inr ⟨"notjson", rfl, Or.inr rfl⟩)

/-- Environment refuting C4 as stated: `"null"` is valid inline JSON, so
`angular.fromJson` succeeds and `configInitialized` runs — but the parsed
value is falsy, so `if (!configJson)` still sends the code into the
URL-template branch and per-language fetches ARE issued (to the URL
`"null"`, the raw attribute, once per default language). -/
def c4cex : Env :=
  { defaults := Val.vobj (.cons "a" (.vnum 1) .nil)
    configAttr := some "null"
    langAttr := none
    parse := fun s => if s = "null" then some Val.vnull else none
    parseLangs := fun _ => none
    fetch := fun _ => .ok Val.vnull }

/-- C4 counterexample: for the valid inline JSON input `null` the claim's
"issuing no per-language fetches" fails — two fetches go out. -/
theorem c4_counterexample :
    c4cex.parse "null" = some Val.vnull ∧
    (runInit c4cex).fetched = ["null", "null"] ∧
    (runInit c4cex).fetched ≠ [] := by
  refine ⟨rfl, rfl, by decide⟩

/-- C4 amended: for every inline JSON input whose parsed value is truthy —
in particular every JSON object `C` — and which creates no object-over-
array conflict with the defaults (`jsonSafeMerge`, the zone where angular
produces only JSON values), the executor merges `C` over the defaults and
stores the result only under `"en"`, issues no fetches, resolves, and
`getCurrent()` under current language `"en"` returns `merge(defaults, C)`;
the merge is override-wins (a key of `C` gets `C`'s value assigned via
`nestedVal`: mappings merge recursively into existing mappings, arrays
index-merge into existing arrays and extend existing mappings by index
keys, everything else is replaced wholesale), and keys `C` does not
mention keep the defaults' values. -/
theorem c4_inline_object (e : Env) (ca : String) (dfs cfs : Fields)
    (hca : e.configAttr = some ca) (hne : ca ≠ "")
    (hp : e.parse ca = some (Val.vobj cfs))
    (hd : e.defaults = Val.vobj dfs) (hdnd : (Val.vobj dfs).dnd = true)
    (_hsafe : jsonSafeMerge (some (Val.vobj dfs)) (Val.vobj cfs) = true) :
    (runInit e).fetched = [] ∧
    (runInit e).settled = POutcome.resolved ∧
    (runInit e).store = [("en", Val.vobj (mergeFields dfs cfs))] ∧
    getCurrent (runInit e).store none "en" = some (Val.vobj (mergeFields dfs cfs)) ∧
    (cfs.keysNodup = true → ∀ k v, cfs.lookupK k = some v →
      (mergeFields dfs cfs).lookupK k = some (nestedVal (dfs.lookupK k) v)) ∧
    (∀ k, cfs.hasKey k = false →
      (mergeFields dfs cfs).lookupK k = dfs.lookupK k) := by
  have ht : (Val.vobj cfs).truthy = true := rfl
  rw [runInit_inline e ca _ hca hne hp ht]
  have hm : cfgMerge e.defaults (Val.vobj cfs) = Val.vobj (mergeFields dfs cfs) := by
    rw [cfgMerge, hd, angularMergeTop_empty hdnd]
    rfl
  have hen : primarySubtag (jsOrStr none "en") = "en" := rfl
  refine ⟨rfl, rfl, by rw [hm], ?_, ?_, ?_⟩
  · simp [getCurrent, hen, storeLookup, hm]
  · intro hnd k v hkv
    exact mergeFields_lookup cfs hnd dfs k v hkv
  · intro k hk
    exact mergeFields_lookup_absent cfs dfs k hk

/-- Concrete environment for the C4 witness: defaults with a nested
object, and an inline config overriding part of it, declared as the JSON
text the parse oracle maps to its parsed object. -/
def c4wenv : Env :=
  { defaults := Val.vobj (.cons "a" (.vnum 1)
      (.cons "b" (.vobj (.cons "x" (.vnum 2) (.cons "y" (.vnum 3) .nil))) .nil))
    configAttr := some "\x7b\"b\":\x7b\"x\":9\x7d,\"c\":\"z\"\x7d"
    langAttr := none
    parse := fun s =>
      if s = "\x7b\"b\":\x7b\"x\":9\x7d,\"c\":\"z\"\x7d"
      then some (Val.vobj (.cons "b" (.vobj (.cons "x" (.vnum 9) .nil))
        (.cons "c" (.vstr "z") .nil)))
      else none
    parseLangs := fun _ => none
    fetch := fun _ => .err }

/-- Fields of the C4 witness defaults. -/
def c4wdfs : Fields :=
  .cons "a" (.vnum 1)
    (.cons "b" (.vobj (.cons "x" (.vnum 2) (.cons "y" (.vnum 3) .nil))) .nil)

/-- Fields of the C4 witness inline config. -/
def c4wcfs : Fields :=
  .cons "b" (.vobj (.cons "x" (.vnum 9) .nil)) (.cons "c" (.vstr "z") .nil)

theorem c4_witness :
    (runInit c4wenv).fetched = [] ∧
    (runInit c4wenv).settled = POutcome.resolved ∧
    (runInit c4wenv).store = [("en", Val.vobj (mergeFields c4wdfs c4wcfs))] ∧
    getCurrent (runInit c4wenv).store none "en" =
      some (Val.vobj (mergeFields c4wdfs c4wcfs)) ∧
    (c4wcfs.keysNodup = true → ∀ k v, c4wcfs.lookupK k = some v →
      (mergeFields c4wdfs c4wcfs).lookupK k =
        some (nestedVal (c4wdfs.lookupK k) v)) ∧
    (∀ k, c4wcfs.hasKey k = false →
      (mergeFields c4wdfs c4wcfs).lookupK k = c4wdfs.lookupK k) :=
  c4_inline_object c4wenv "\x7b\"b\":\x7b\"x\":9\x7d,\"c\":\"z\"\x7d" c4wdfs c4wcfs
    rfl (by decide) rfl rfl rfl rfl

/-- C6 counterexample: the initialization handle has rejected and the
single extra awaitable is still pending, yet `ready` settles resolved at
once — the rejection skips the `then` callback, so `$q.all(extra)` is
never consulted and `ready` does not wait on `extra`, contradicting the
claim that after either settlement it waits on all of `extra`. -/
theorem c6_counterexample :
    readyOutcome POutcome.rejected [POutcome.pending] = POutcome.resolved ∧
    readyOutcome POutcome.rejected [POutcome.pending] ≠ POutcome.pending := by
  decide

/-- C6 amended: `ready(extra)` waits on the initialization handle; while
it is pending, `ready` is pending.  If it resolved, `ready` settles
(resolved) exactly when `$q.all(extra)` settles — so it waits on `extra`,
with the all-combinator's early exit on a rejected member.  If it
rejected, the `catch` fires immediately and `ready` resolves without
waiting on `extra` at all.  In no case does `ready` itself reject. -/
theorem c6_ready_behavior :
    (∀ extra, readyOutcome POutcome.pending extra = POutcome.pending) ∧
    (∀ extra, readyOutcome POutcome.rejected extra = POutcome.resolved) ∧
    (∀ extra, readyOutcome POutcome.resolved extra =
      (if qAll extra = POutcome.pending then POutcome.pending
       else POutcome.resolved)) ∧
    (∀ i extra, readyOutcome i extra ≠ POutcome.rejected) := by
  refine ⟨fun _ => rfl, fun _ => rfl, ?_, ?_⟩
  · intro extra
    cases h : qAll extra <;> simp [readyOutcome, pThen, pCatch, h]
  · intro i extra
    cases i with
    | pending => simp [readyOutcome, pThen, pCatch]
    | rejected => simp [readyOutcome, pThen, pCatch]
    | resolved => cases h : qAll extra <;> simp [readyOutcome, pThen, pCatch, h]

theorem c6_witness :
    readyOutcome POutcome.pending [] = POutcome.pending ∧
    readyOutcome POutcome.rejected [POutcome.rejected] = POutcome.resolved ∧
    readyOutcome POutcome.resolved [POutcome.pending, POutcome.resolved] =
      (if qAll [POutcome.pending, POutcome.resolved] = POutcome.pending
       then POutcome.pending else POutcome.resolved) ∧
    readyOutcome POutcome.resolved [POutcome.rejected] ≠ POutcome.rejected :=
  ⟨c6_ready_behavior.1 [], c6_ready_behavior.2.1 [POutcome.rejected],
    c6_ready_behavior.2.2.1 [POutcome.pending, POutcome.resolved],
    c6_ready_behavior.2.2.2 POutcome.resolved [POutcome.rejected]⟩

/-- Environment refuting C10 as stated: `rv-langs='["$&"]'` declares the
language list `["$&"]`; JS `replace` expands `$&` in the replacement
string to the matched text, so the fetched URL is NOT the template with
its first `$LANG` replaced by the language code. -/
def c10cex : Env :=
  { defaults := Val.vobj .nil
    configAttr := some "cfg.$LANG.json"
    langAttr := some "[\"$&\"]"
    parse := fun _ => none
    parseLangs := fun s => if s = "[\"$&\"]" then some ["$&"] else none
    fetch := fun _ => .ok (Val.vobj .nil) }

/-- C10 counterexample: for language `"$&"` the fetched URL is the
unchanged template, not the template with `$LANG` literally replaced by
the language code (which would be `cfg.$&.json`). -/
theorem c10_counterexample :
    (runInit c10cex).fetched = ["cfg.$LANG.json"] ∧
    specReplaceFirst "cfg.$LANG.json" "$LANG" "$&" = "cfg.$&.json" ∧
    (runInit c10cex).fetched ≠
      [specReplaceFirst "cfg.$LANG.json" "$LANG" "$&"] := by
  refine ⟨rfl, rfl, by decide⟩

/-- C10 amended: every fetched URL is the template rewritten at the first
occurrence of `$LANG` under JS string-replacement rules; for language
codes containing no dollar character (every real language tag) this is
exactly the literal first-occurrence substitution — later occurrences of
`$LANG` are left untouched. -/
theorem c10_first_occurrence (e : Env) (ca : String)
    (hca : e.configAttr = some ca) (hne : ca ≠ "") (hp : e.parse ca = none) :
    (runInit e).fetched =
      (declaredLangs e).map (fun l => replaceFirstJS ca "$LANG" l) ∧
    (∀ l, noDollar l = true →
      replaceFirstJS ca "$LANG" l = specReplaceFirst ca "$LANG" l) := by
  constructor
  · rw [runInit_url e ca hca hne hp]
    simp [langURL]
  · intro l hl
    rw [replaceFirstJS, specReplaceFirst,
      replaceFirstL_eq_spec ("$LANG".data) l.data hl ca.data]

/-- Concrete environment for the C10 witness. -/
def c10wenv : Env :=
  { defaults := Val.vobj .nil
    configAttr := some "cfg.$LANG.json"
    langAttr := none
    parse := fun _ => none
    parseLangs := fun _ => none
    fetch := fun _ => .err }

theorem c10_witness :
    (runInit c10wenv).fetched =
      (declaredLangs c10wenv).map
        (fun l => replaceFirstJS "cfg.$LANG.json" "$LANG" l) ∧
    (∀ l, noDollar l = true →
      replaceFirstJS "cfg.$LANG.json" "$LANG" l =
        specReplaceFirst "cfg.$LANG.json" "$LANG" l) :=
  c10_first_occurrence c10wenv "cfg.$LANG.json" rfl (by decide) rfl

end FgpvConfig
